import Mathlib

/-!
Shallow embedding of the auction server in src/server.js.

Amounts travel through the code as JavaScript numbers produced by
parseFloat, so they are modelled by an idealized JS number type: NaN,
plus/minus infinity, or an exact rational (binary-float representation
error is not modelled; toFixed(2) is modelled as exact decimal rounding,
ties away from negative infinity, per the ECMAScript definition).
Timestamps (startsAt, endsAt, now) are epoch milliseconds, modelled as
integers; the ISO-string round trip is faithfully order-preserving.
The store DATA.auctions is a list of auctions; each route handler is a
function from the store (plus the parsed request fields) to result and
new store.  crypto.randomBytes ids are oracle inputs: each generateId()
call site receives its result as an explicit string parameter.
-/

set_option allowUnsafeReducibility true

attribute [local semireducible] Rat.add Rat.mul Rat.inv Rat.sub Rat.ofScientific

namespace AuctionServer

/-- Idealized JavaScript number: NaN, an infinity, or an exact rational. -/
inductive JsNum where
  | nan
  | inf
  | ninf
  | fin (q : ℚ)
deriving DecidableEq, Repr

namespace JsNum

/-- JavaScript isNaN on an already-numeric value. -/
def isNaN : JsNum → Bool
  | nan => true
  | _ => false

/-- JavaScript truthiness of a number: NaN and 0 are falsy. -/
def truthy : JsNum → Bool
  | nan => false
  | fin q => decide (q ≠ 0)
  | _ => true

/-- JavaScript strict comparison a < b (false whenever NaN is involved). -/
def lt : JsNum → JsNum → Bool
  | nan, _ => false
  | _, nan => false
  | ninf, ninf => false
  | ninf, _ => true
  | _, ninf => false
  | inf, _ => false
  | _, inf => true
  | fin p, fin q => decide (p < q)

/-- JavaScript comparison a <= b (false whenever NaN is involved). -/
def le : JsNum → JsNum → Bool
  | nan, _ => false
  | _, nan => false
  | ninf, _ => true
  | _, inf => true
  | inf, _ => false
  | fin _, ninf => false
  | fin p, fin q => decide (p ≤ q)

/-- JavaScript subtraction a - b. -/
def sub : JsNum → JsNum → JsNum
  | nan, _ => nan
  | _, nan => nan
  | inf, inf => nan
  | inf, _ => inf
  | ninf, ninf => nan
  | ninf, _ => ninf
  | fin _, inf => ninf
  | fin _, ninf => inf
  | fin p, fin q => fin (p - q)

/-- JavaScript strict equality a === b on numbers: NaN is not equal to NaN. -/
def strictEq : JsNum → JsNum → Bool
  | fin p, fin q => decide (p = q)
  | inf, inf => true
  | ninf, ninf => true
  | _, _ => false

/-- JavaScript a || d on a number a with numeric default d. -/
def orD (a d : JsNum) : JsNum :=
  if a.truthy then a else d

/-- parseFloat(x.toFixed(2)): rounding to two decimal places, ties toward
plus infinity (the ECMAScript toFixed choice of the larger candidate);
NaN and the infinities are reproduced verbatim by the string round trip. -/
def round2 : JsNum → JsNum
  | fin q => fin (((q * 100 + 1 / 2).floor : ℚ) / 100)
  | x => x

/-- The value is an exact whole number of hundredths (cents). -/
def centMul : JsNum → Bool
  | fin q => decide ((q * 100).den = 1)
  | _ => false

end JsNum

/-- JavaScript String.prototype.trim: strip leading and trailing
whitespace (structurally recursive model of the library function). -/
def jsTrim (s : String) : String :=
  String.mk
    ((((s.toList.dropWhile Char.isWhitespace).reverse.dropWhile
        Char.isWhitespace).reverse))

/-- JavaScript String.prototype.slice(0, n): the first n characters. -/
def jsTake (s : String) (n : Nat) : String :=
  String.mk (s.toList.take n)

/-- One recorded bid: the entry pushed onto auction.bids
({ amount, atISO, ip }; the ip field plays no role in any claim). -/
structure BidEntry where
  amount : JsNum
  atISO : Int
deriving DecidableEq, Repr

/-- One auction object as stored in DATA.auctions (src/server.js lines
290-302): maxIncrement is Option-valued because the code stores
undefined for "no cap". -/
structure Auction where
  id : String
  slug : String
  title : String
  description : String
  startsAt : Int
  endsAt : Int
  startingBid : JsNum
  minIncrement : JsNum
  maxIncrement : Option JsNum
  currentBid : JsNum
  bids : List BidEntry
deriving DecidableEq, Repr

/-- clampBidIncrement from src/server.js lines 102-106:
if (maxInc and amount > maxInc) return maxInc;
if (amount < minInc) return minInc; return amount.
An undefined maxInc (none) and a zero maxInc are both falsy in JS. -/
def clampBidIncrement (amount minInc : JsNum) (maxInc : Option JsNum) : JsNum :=
  match maxInc with
  | some m =>
      if m.truthy && JsNum.lt m amount then m
      else if JsNum.lt amount minInc then minInc
      else amount
  | none =>
      if JsNum.lt amount minInc then minInc
      else amount

/-- hasStarted from src/server.js line 123-125: now >= startsAt. -/
def hasStarted (now startsAt : Int) : Bool := decide (startsAt ≤ now)

/-- hasEnded from src/server.js line 127-129: now >= endsAt. -/
def hasEnded (now endsAt : Int) : Bool := decide (endsAt ≤ now)

/-- Result of POST /:slug/bid.  The four rejection constructors carry the
four distinct response messages of src/server.js lines 183-199; both
increment-bound violations produce the single shared message
"Bid increment must be between (minIncrement) and (maxIncrement)",
whose interpolated values the constructor records. -/
inductive BidOutcome where
  | notFound
  | notStarted
  | ended
  | tooLow
  | incrementOutOfBounds (minInc : JsNum) (maxInc : Option JsNum)
  | accepted (newBid : JsNum)
deriving DecidableEq, Repr

/-- Replace the first element satisfying p by its image under f: the
effect of mutating the object returned by Array.prototype.find. -/
def updateFirst (p : Auction → Bool) (f : Auction → Auction) :
    List Auction → List Auction
  | [] => []
  | a :: rest => if p a then f a :: rest else a :: updateFirst p f rest

/-- POST /:slug/bid, src/server.js lines 179-206.  amount is the
parseFloat of the request body field (any JsNum is reachable). -/
def placeBid (auctions : List Auction) (slug : String) (amount : JsNum)
    (now : Int) : BidOutcome × List Auction :=
  match auctions.find? (fun a => a.slug == slug) with
  | none => (.notFound, auctions)
  | some auction =>
      let inc := JsNum.sub amount auction.currentBid
      if !hasStarted now auction.startsAt then (.notStarted, auctions)
      else if hasEnded now auction.endsAt then (.ended, auctions)
      else if amount.isNaN || JsNum.le amount auction.currentBid then
        (.tooLow, auctions)
      else
        let incClamped :=
          clampBidIncrement inc auction.minIncrement auction.maxIncrement
        if !JsNum.strictEq inc incClamped then
          (.incrementOutOfBounds auction.minIncrement auction.maxIncrement,
           auctions)
        else
          let newBid := JsNum.round2 amount
          (.accepted newBid,
           updateFirst (fun a => a.slug == slug)
             (fun a =>
               { a with currentBid := newBid,
                        bids := a.bids ++ [{ amount := newBid, atISO := now }] })
             auctions)

/-- Parsed fields of POST /admin/auction (src/server.js lines 267-283).
startingBid, minIncrement, maxIncrement hold parseFloat(field or the
route's literal default string); startsAt is the epoch value of
utcISOFromLocal(startsAtLocal); durationMinutes is the parseInt result,
none meaning NaN. -/
structure CreateReq where
  title : String
  slug : String
  description : String
  startsAt : Int
  durationMinutes : Option Int
  startingBid : JsNum
  minIncrement : JsNum
  maxIncrement : JsNum
deriving Repr

/-- parseInt(durationMinutes, 10) || 60: NaN and 0 fall back to 60. -/
def durEff : Option Int → Int
  | none => 60
  | some d => if d = 0 then 60 else d

/-- Models the external slugify dependency with the lower and strict
options used at src/server.js line 278: lowercases ASCII letters, keeps
letters, digits and hyphens, turns spaces into hyphens, drops the rest. -/
def slugifyModel (s : String) : String :=
  String.mk (s.toList.filterMap fun c =>
    if c = ' ' then some '-'
    else if c.isAlphanum then some c.toLower
    else if c = '-' then some '-'
    else none)

/-- Slug derivation of POST /admin/auction, src/server.js lines 276-288:
take the slug field, else the (trimmed) title; trim; slugify; if empty,
"auction-" plus a fresh id; if the result collides with an existing
auction's slug, append a hyphen and the first four characters of another
fresh id - with no second collision check. -/
def chooseSlug (auctions : List Auction) (req : CreateReq)
    (ridEmpty ridCollide : String) : String :=
  let s0 := slugifyModel (jsTrim (if req.slug ≠ "" then req.slug
                           else jsTrim req.title))
  let s1 := if s0 = "" then "auction-" ++ ridEmpty else s0
  if auctions.any (fun a => a.slug == s1) then
    s1 ++ "-" ++ jsTake ridCollide 4
  else s1

/-- POST /admin/auction, src/server.js lines 267-307.  The three rid
arguments are the values of the up to three generateId() calls (empty
slug fallback, collision suffix, auction id). -/
def createAuction (auctions : List Auction) (req : CreateReq)
    (ridEmpty ridCollide ridAuction : String) : List Auction :=
  let startingBid := JsNum.orD req.startingBid (.fin 0)
  let minIncrement := JsNum.orD req.minIncrement (.fin 1)
  let maxIncrement := JsNum.orD req.maxIncrement (.fin 0)
  let slug := chooseSlug auctions req ridEmpty ridCollide
  let endsAt := req.startsAt + durEff req.durationMinutes * 60000
  auctions ++
    [{ id := ridAuction
       slug := slug
       title := jsTrim req.title
       description := jsTrim req.description
       startsAt := req.startsAt
       endsAt := endsAt
       startingBid := startingBid
       minIncrement := minIncrement
       maxIncrement := if JsNum.lt (.fin 0) maxIncrement
                       then some maxIncrement else none
       currentBid := startingBid
       bids := [] }]

/-- Parsed fields of POST /admin/auction/:id/update (src/server.js lines
309-347).  For title, description, startingBid, minIncrement a none
means the field was falsy (absent or empty); for them the some value is
the raw string respectively its parseFloat (which may be NaN).  The
time window is applied only when both startsAtLocal and durationMinutes
are truthy; maxIncrement is none exactly when the key is undefined. -/
structure UpdateReq where
  title : Option String
  description : Option String
  timeWindow : Option (Int × Option Int)
  startingBid : Option JsNum
  minIncrement : Option JsNum
  maxIncrement : Option JsNum
deriving Repr

/-- if (title) auction.title = title.trim()  (line 315). -/
def updTitle (req : UpdateReq) (a : Auction) : Auction :=
  match req.title with
  | some t => { a with title := jsTrim t }
  | none => a

/-- if (description) auction.description = description.trim()  (line 316). -/
def updDescription (req : UpdateReq) (a : Auction) : Auction :=
  match req.description with
  | some d => { a with description := jsTrim d }
  | none => a

/-- if (startsAtLocal and durationMinutes) recompute both timestamps
together (lines 318-323). -/
def updTime (req : UpdateReq) (a : Auction) : Auction :=
  match req.timeWindow with
  | some (s, d) => { a with startsAt := s, endsAt := s + durEff d * 60000 }
  | none => a

/-- Lines 325-335: a present, numeric startingBid always overwrites the
startingBid field; currentBid follows it only while bids is empty (the
sb > currentBid branch of line 331 is empty in the source). -/
def updStartingBid (req : UpdateReq) (a : Auction) : Auction :=
  match req.startingBid with
  | some sb =>
      if sb.isNaN then a
      else { a with startingBid := sb
                    currentBid := if a.bids.isEmpty then sb else a.currentBid }
  | none => a

/-- Lines 336-339: minIncrement changes only for a numeric positive value. -/
def updMinIncrement (req : UpdateReq) (a : Auction) : Auction :=
  match req.minIncrement with
  | some mi =>
      if !mi.isNaN && JsNum.lt (.fin 0) mi then { a with minIncrement := mi }
      else a
  | none => a

/-- Lines 340-343: a present maxIncrement key stores the value if numeric
and positive, and undefined otherwise. -/
def updMaxIncrement (req : UpdateReq) (a : Auction) : Auction :=
  match req.maxIncrement with
  | some mx =>
      { a with maxIncrement := if !mx.isNaN && JsNum.lt (.fin 0) mx
                               then some mx else none }
  | none => a

/-- The whole per-auction patch of POST /admin/auction/:id/update,
src/server.js lines 314-343, applied in source order. -/
def applyUpdate (req : UpdateReq) (a : Auction) : Auction :=
  updMaxIncrement req (updMinIncrement req (updStartingBid req
    (updTime req (updDescription req (updTitle req a)))))

/-- POST /admin/auction/:id/update, src/server.js lines 309-347: patch
the first auction whose id matches (no change when absent). -/
def updateAuction (auctions : List Auction) (id : String)
    (req : UpdateReq) : List Auction :=
  updateFirst (fun a => a.id == id) (applyUpdate req) auctions

/-- POST /admin/auction/:id/delete, src/server.js lines 349-354. -/
def deleteAuction (auctions : List Auction) (id : String) : List Auction :=
  auctions.filter (fun a => a.id != id)

/-- One mutating operation against the store. -/
inductive Op where
  | create (req : CreateReq) (ridEmpty ridCollide ridAuction : String)
  | bid (slug : String) (amount : JsNum) (now : Int)
  | update (id : String) (req : UpdateReq)
  | delete (id : String)

/-- Apply one operation to the store. -/
def applyOp (auctions : List Auction) : Op → List Auction
  | .create req r1 r2 r3 => createAuction auctions req r1 r2 r3
  | .bid slug amount now => (placeBid auctions slug amount now).2
  | .update id req => updateAuction auctions id req
  | .delete id => deleteAuction auctions id

/-- Run a sequence of operations from the initial store, which holds no
auctions (initialData in src/server.js lines 44-68). -/
def run (ops : List Op) : List Auction :=
  ops.foldl applyOp []

/-- A well-formed creation request used by the concrete scenarios:
window from 0 to 6000000 ms, starting bid 50, increments in [1, 100]
(the worked scenario of the specification). -/
def reqLot : CreateReq :=
  { title := "Lot"
    slug := "lot"
    description := ""
    startsAt := 0
    durationMinutes := some 100
    startingBid := .fin 50
    minIncrement := .fin 1
    maxIncrement := .fin 100 }

/-- The empty admin patch: every field absent. -/
def patchNone : UpdateReq :=
  { title := none, description := none, timeWindow := none,
    startingBid := none, minIncrement := none, maxIncrement := none }

/-- The store produced by creating reqLot (ids "x", "y", "i1"). -/
def storeLot : List Auction := run [.create reqLot "x" "y" "i1"]

/-- The one auction storeLot holds. -/
def lotAuction : Auction :=
  { id := "i1"
    slug := "lot"
    title := "Lot"
    description := ""
    startsAt := 0
    endsAt := 6000000
    startingBid := .fin 50
    minIncrement := .fin 1
    maxIncrement := some (.fin 100)
    currentBid := .fin 50
    bids := [] }

/-- The store after creating reqLot and accepting a bid of 60 at t = 5. -/
def storeLotBid : List Auction :=
  run [.create reqLot "x" "y" "i1", .bid "lot" (.fin 60) 5]

/-- The one auction storeLotBid holds. -/
def lotAuctionBid : Auction :=
  { lotAuction with
      currentBid := .fin 60
      bids := [{ amount := .fin 60, atISO := 5 }] }

/-- lotAuction as created without a bid cap (maxIncrement rejected to
undefined by the creation route). -/
def lotNoCap : Auction := { lotAuction with maxIncrement := none }

/-! Helper lemmas. -/

theorem ratFloor_eq_intFloor (q : ℚ) : q.floor = ⌊q⌋ := by
  rw [Rat.floor_def', Rat.floor_def]

theorem round2_fin (q : ℚ) :
    JsNum.round2 (.fin q) = .fin (((⌊q * 100 + 1 / 2⌋ : ℤ) : ℚ) / 100) := by
  simp [JsNum.round2, ratFloor_eq_intFloor]

theorem strictEq_false_of_lt {a b : JsNum} (h : JsNum.lt a b = true) :
    JsNum.strictEq a b = false := by
  cases a <;> cases b <;>
    simp_all [JsNum.lt, JsNum.strictEq] <;> exact ne_of_lt h

theorem strictEq_false_of_gt {a b : JsNum} (h : JsNum.lt b a = true) :
    JsNum.strictEq a b = false := by
  cases a <;> cases b <;>
    simp_all [JsNum.lt, JsNum.strictEq] <;> exact ne_of_gt h

/-- An increment that survives the clamp comparison of line 198
(inc === incClamped) violates neither bound. -/
theorem clamp_bounds {inc minInc : JsNum} {maxInc : Option JsNum}
    (h : JsNum.strictEq inc (clampBidIncrement inc minInc maxInc) = true) :
    JsNum.lt inc minInc = false ∧
      ∀ m, maxInc = some m → m.truthy = true → JsNum.lt m inc = false := by
  cases maxInc with
  | none =>
    refine ⟨?_, by intro m hm; cases hm⟩
    by_cases hlt : JsNum.lt inc minInc = true
    · rw [clampBidIncrement, if_pos hlt, strictEq_false_of_lt hlt] at h
      cases h
    · simpa using hlt
  | some m =>
    by_cases htr : (m.truthy && JsNum.lt m inc) = true
    · rw [clampBidIncrement, if_pos htr] at h
      have := @strictEq_false_of_gt inc m
        ((Bool.and_eq_true _ _).mp htr).2
      rw [this] at h; cases h
    · rw [clampBidIncrement, if_neg htr] at h
      constructor
      · by_cases hlt : JsNum.lt inc minInc = true
        · rw [if_pos hlt, strictEq_false_of_lt hlt] at h; cases h
        · simpa using hlt
      · intro m2 hm2 htru
        obtain rfl : m2 = m := by injection hm2 with he; exact he.symm
        by_cases hmi : JsNum.lt m2 inc = true
        · exact absurd (by simp [htru, hmi]) htr
        · simpa using hmi

theorem centRepr {q : ℚ} (h : JsNum.centMul (.fin q) = true) :
    q = ((q * 100).num : ℚ) / 100 := by
  have hden : (q * 100).den = 1 := by simpa [JsNum.centMul] using h
  have hnum : ((q * 100).num : ℚ) = q * 100 :=
    Rat.coe_int_num_of_den_eq_one hden
  rw [hnum]; field_simp

theorem floor_half_ge {x : ℚ} {k : ℤ} (h : (k : ℚ) ≤ x) :
    (k : ℚ) ≤ ((⌊x + 1 / 2⌋ : ℤ) : ℚ) := by
  have : k ≤ ⌊x + 1 / 2⌋ := Int.le_floor.mpr (by linarith)
  exact_mod_cast this

theorem floor_half_le {x : ℚ} {k : ℤ} (h : x ≤ (k : ℚ)) :
    ((⌊x + 1 / 2⌋ : ℤ) : ℚ) ≤ (k : ℚ) := by
  have : ⌊x + 1 / 2⌋ < k + 1 := Int.floor_lt.mpr (by push_cast; linarith)
  exact_mod_cast Int.lt_add_one_iff.mp this

theorem find?_split {p : Auction → Bool} {l : List Auction} {a : Auction}
    (h : l.find? p = some a) :
    ∃ l₁ l₂, l = l₁ ++ a :: l₂ ∧ (∀ x ∈ l₁, p x = false) ∧ p a = true := by
  induction l with
  | nil => cases h
  | cons b t ih =>
    by_cases hb : p b
    · rw [List.find?_cons_of_pos _ hb] at h
      cases h
      exact ⟨[], t, rfl, by simp, hb⟩
    · rw [List.find?_cons_of_neg _ (by simpa using hb)] at h
      obtain ⟨l₁, l₂, rfl, h1, h2⟩ := ih h
      refine ⟨b :: l₁, l₂, rfl, ?_, h2⟩
      intro x hx
      rcases List.mem_cons.mp hx with rfl | hx
      · simpa using hb
      · exact h1 x hx

theorem updateFirst_append {p : Auction → Bool} {f : Auction → Auction}
    (l₁ : List Auction) (a : Auction) (l₂ : List Auction)
    (h1 : ∀ x ∈ l₁, p x = false) (ha : p a = true) :
    updateFirst p f (l₁ ++ a :: l₂) = l₁ ++ f a :: l₂ := by
  induction l₁ with
  | nil => simp [updateFirst, ha]
  | cons b t ih =>
    have hb : p b = false := h1 b (by simp)
    simp only [List.cons_append, updateFirst, hb]
    simp only [Bool.false_eq_true, if_false, List.cons.injEq, true_and]
    exact ih fun x hx => h1 x (by simp [hx])

theorem mem_updateFirst {p : Auction → Bool} {f : Auction → Auction}
    {l : List Auction} {b : Auction} (h : b ∈ updateFirst p f l) :
    b ∈ l ∨ ∃ a, a ∈ l ∧ p a = true ∧ b = f a := by
  induction l with
  | nil => cases h
  | cons c t ih =>
    by_cases hc : p c
    · simp only [updateFirst, if_pos hc] at h
      rcases List.mem_cons.mp h with rfl | h
      · exact Or.inr ⟨c, by simp, hc, rfl⟩
      · exact Or.inl (by simp [h])
    · simp only [updateFirst, if_neg hc] at h
      rcases List.mem_cons.mp h with rfl | h
      · exact Or.inl (by simp)
      · rcases ih h with h | ⟨a, ha, hpa, rfl⟩
        · exact Or.inl (by simp [h])
        · exact Or.inr ⟨a, by simp [ha], hpa, rfl⟩

theorem updateFirst_length {p : Auction → Bool} {f : Auction → Auction}
    (l : List Auction) : (updateFirst p f l).length = l.length := by
  induction l with
  | nil => rfl
  | cons c t ih => by_cases hc : p c <;> simp [updateFirst, hc, ih]

theorem updTitle_fields (req : UpdateReq) (a : Auction) :
    (updTitle req a).bids = a.bids ∧
      (updTitle req a).currentBid = a.currentBid ∧
      (updTitle req a).startingBid = a.startingBid ∧
      (updTitle req a).maxIncrement = a.maxIncrement ∧
      (updTitle req a).id = a.id := by
  cases h : req.title <;> simp [updTitle, h]

theorem updDescription_fields (req : UpdateReq) (a : Auction) :
    (updDescription req a).bids = a.bids ∧
      (updDescription req a).currentBid = a.currentBid ∧
      (updDescription req a).startingBid = a.startingBid ∧
      (updDescription req a).maxIncrement = a.maxIncrement ∧
      (updDescription req a).id = a.id := by
  cases h : req.description <;> simp [updDescription, h]

theorem updTime_fields (req : UpdateReq) (a : Auction) :
    (updTime req a).bids = a.bids ∧
      (updTime req a).currentBid = a.currentBid ∧
      (updTime req a).startingBid = a.startingBid ∧
      (updTime req a).maxIncrement = a.maxIncrement ∧
      (updTime req a).id = a.id := by
  cases h : req.timeWindow with
  | none => simp [updTime, h]
  | some w => obtain ⟨s, d⟩ := w; simp [updTime, h]

theorem updStartingBid_frame (req : UpdateReq) (a : Auction) :
    (updStartingBid req a).bids = a.bids ∧
      (updStartingBid req a).maxIncrement = a.maxIncrement ∧
      (updStartingBid req a).id = a.id := by
  cases h : req.startingBid with
  | none => simp [updStartingBid, h]
  | some sb =>
    by_cases hn : sb.isNaN = true <;> simp [updStartingBid, h, hn]

theorem updStartingBid_currentBid_of_ne (req : UpdateReq) (a : Auction)
    (hb : a.bids ≠ []) :
    (updStartingBid req a).currentBid = a.currentBid := by
  cases h : req.startingBid with
  | none => simp [updStartingBid, h]
  | some sb =>
    by_cases hn : sb.isNaN = true <;>
      simp [updStartingBid, h, hn, List.isEmpty_iff, hb]

theorem updStartingBid_inv_empty (req : UpdateReq) (a : Auction)
    (hb : a.bids = []) (hinv : a.currentBid = a.startingBid) :
    (updStartingBid req a).currentBid = (updStartingBid req a).startingBid := by
  cases h : req.startingBid with
  | none => simp [updStartingBid, h, hinv]
  | some sb =>
    by_cases hn : sb.isNaN = true <;>
      simp [updStartingBid, h, hn, List.isEmpty_iff, hb, hinv]

theorem updStartingBid_set (req : UpdateReq) (a : Auction) (sb : JsNum)
    (h : req.startingBid = some sb) (hn : sb.isNaN = false) :
    (updStartingBid req a).startingBid = sb ∧
      (a.bids = [] → (updStartingBid req a).currentBid = sb) ∧
      (a.bids ≠ [] → (updStartingBid req a).currentBid = a.currentBid) := by
  refine ⟨?_, ?_, ?_⟩ <;>
    simp [updStartingBid, h, hn, List.isEmpty_iff] <;> intro h2 <;> simp [h2]

theorem updMinIncrement_fields (req : UpdateReq) (a : Auction) :
    (updMinIncrement req a).bids = a.bids ∧
      (updMinIncrement req a).currentBid = a.currentBid ∧
      (updMinIncrement req a).startingBid = a.startingBid ∧
      (updMinIncrement req a).maxIncrement = a.maxIncrement ∧
      (updMinIncrement req a).id = a.id := by
  cases h : req.minIncrement with
  | none => simp [updMinIncrement, h]
  | some mi =>
    by_cases hc : (!mi.isNaN && JsNum.lt (.fin 0) mi) = true <;>
      simp [updMinIncrement, h, hc]

theorem updMaxIncrement_frame (req : UpdateReq) (a : Auction) :
    (updMaxIncrement req a).bids = a.bids ∧
      (updMaxIncrement req a).currentBid = a.currentBid ∧
      (updMaxIncrement req a).startingBid = a.startingBid ∧
      (updMaxIncrement req a).id = a.id := by
  cases h : req.maxIncrement with
  | none => simp [updMaxIncrement, h]
  | some mx => simp [updMaxIncrement, h]

theorem updMaxIncrement_good (req : UpdateReq) (a : Auction) :
    (updMaxIncrement req a).maxIncrement = a.maxIncrement ∨
      (updMaxIncrement req a).maxIncrement = none ∨
      ∃ m, (updMaxIncrement req a).maxIncrement = some m ∧
        JsNum.lt (.fin 0) m = true := by
  cases h : req.maxIncrement with
  | none => left; simp [updMaxIncrement, h]
  | some mx =>
    by_cases hc : (!mx.isNaN && JsNum.lt (.fin 0) mx) = true
    · right; right
      exact ⟨mx, by simp [updMaxIncrement, h, hc],
        ((Bool.and_eq_true _ _).mp hc).2⟩
    · right; left; simp [updMaxIncrement, h, hc]

theorem applyUpdate_bids (req : UpdateReq) (a : Auction) :
    (applyUpdate req a).bids = a.bids := by
  rw [applyUpdate]
  rw [(updMaxIncrement_frame req _).1, (updMinIncrement_fields req _).1,
    (updStartingBid_frame req _).1, (updTime_fields req _).1,
    (updDescription_fields req _).1, (updTitle_fields req _).1]

theorem applyUpdate_id (req : UpdateReq) (a : Auction) :
    (applyUpdate req a).id = a.id := by
  rw [applyUpdate]
  rw [(updMaxIncrement_frame req _).2.2.2,
    (updMinIncrement_fields req _).2.2.2.2,
    (updStartingBid_frame req _).2.2, (updTime_fields req _).2.2.2.2,
    (updDescription_fields req _).2.2.2.2, (updTitle_fields req _).2.2.2.2]

theorem applyUpdate_currentBid_of_ne (req : UpdateReq) (a : Auction)
    (hb : a.bids ≠ []) :
    (applyUpdate req a).currentBid = a.currentBid := by
  rw [applyUpdate]
  rw [(updMaxIncrement_frame req _).2.1, (updMinIncrement_fields req _).2.1,
    updStartingBid_currentBid_of_ne req _
      (by rw [(updTime_fields req _).1, (updDescription_fields req _).1,
              (updTitle_fields req _).1]; exact hb),
    (updTime_fields req _).2.1, (updDescription_fields req _).2.1,
    (updTitle_fields req _).2.1]

theorem applyUpdate_inv_empty (req : UpdateReq) (a : Auction)
    (hb : a.bids = []) (hinv : a.currentBid = a.startingBid) :
    (applyUpdate req a).currentBid = (applyUpdate req a).startingBid := by
  rw [applyUpdate]
  rw [(updMaxIncrement_frame req _).2.1, (updMinIncrement_fields req _).2.1,
    (updMaxIncrement_frame req _).2.2.1, (updMinIncrement_fields req _).2.2.1]
  exact updStartingBid_inv_empty req _
    (by rw [(updTime_fields req _).1, (updDescription_fields req _).1,
            (updTitle_fields req _).1]; exact hb)
    (by rw [(updTime_fields req _).2.1, (updDescription_fields req _).2.1,
            (updTitle_fields req _).2.1,
            (updTime_fields req _).2.2.1, (updDescription_fields req _).2.2.1,
            (updTitle_fields req _).2.2.1]; exact hinv)

theorem applyUpdate_maxIncrement_good (req : UpdateReq) (a : Auction) :
    (applyUpdate req a).maxIncrement = a.maxIncrement ∨
      (applyUpdate req a).maxIncrement = none ∨
      ∃ m, (applyUpdate req a).maxIncrement = some m ∧
        JsNum.lt (.fin 0) m = true := by
  rw [applyUpdate]
  rcases updMaxIncrement_good req
      (updMinIncrement req (updStartingBid req
        (updTime req (updDescription req (updTitle req a))))) with
    h | h | ⟨m, hm, hpos⟩
  · left
    rw [h, (updMinIncrement_fields req _).2.2.2.1,
      (updStartingBid_frame req _).2.1, (updTime_fields req _).2.2.2.1,
      (updDescription_fields req _).2.2.2.1, (updTitle_fields req _).2.2.2.1]
  · right; left; exact h
  · right; right; exact ⟨m, hm, hpos⟩

theorem centMul_fin {n : JsNum} (h : JsNum.centMul n = true) :
    ∃ q : ℚ, n = .fin q ∧ (q * 100).den = 1 := by
  cases n with
  | fin q => exact ⟨q, rfl, by simpa [JsNum.centMul] using h⟩
  | nan => cases h
  | inf => cases h
  | ninf => cases h

theorem le_self_of_centMul {n : JsNum} (h : JsNum.centMul n = true) :
    JsNum.le n n = true := by
  obtain ⟨q, rfl, _⟩ := centMul_fin h
  simp [JsNum.le]

theorem find?_of_split {p : Auction → Bool} (l₁ : List Auction)
    (a : Auction) (l₂ : List Auction) (h1 : ∀ x ∈ l₁, p x = false)
    (ha : p a = true) : (l₁ ++ a :: l₂).find? p = some a := by
  induction l₁ with
  | nil => simpa [List.find?_cons] using List.find?_cons_of_pos l₂ ha
  | cons b t ih =>
    have hb : p b = false := h1 b (by simp)
    rw [List.cons_append, List.find?_cons_of_neg _ (by simp [hb])]
    exact ih fun x hx => h1 x (by simp [hx])

/-- An increment below minIncrement never survives the line 198
comparison, whatever the cap is. -/
theorem clamp_ne_of_belowMin {inc minInc : JsNum} (maxInc : Option JsNum)
    (h : JsNum.lt inc minInc = true) :
    JsNum.strictEq inc (clampBidIncrement inc minInc maxInc) = false := by
  cases maxInc with
  | none => rw [clampBidIncrement, if_pos h]; exact strictEq_false_of_lt h
  | some m =>
    by_cases hc : (m.truthy && JsNum.lt m inc) = true
    · rw [clampBidIncrement, if_pos hc]
      exact strictEq_false_of_gt ((Bool.and_eq_true _ _).mp hc).2
    · rw [clampBidIncrement, if_neg hc, if_pos h]
      exact strictEq_false_of_lt h

/-- An increment above a truthy cap never survives the line 198
comparison. -/
theorem clamp_ne_of_aboveMax {inc minInc m : JsNum}
    (ht : m.truthy = true) (h : JsNum.lt m inc = true) :
    JsNum.strictEq inc (clampBidIncrement inc minInc (some m)) = false := by
  rw [clampBidIncrement, if_pos (by simp [ht, h])]
  exact strictEq_false_of_gt h

theorem forall₂_currentBid_updateFirst {p : Auction → Bool}
    (req : UpdateReq) (l : List Auction) :
    List.Forall₂ (fun x y => x.bids ≠ [] → y.currentBid = x.currentBid)
      l (updateFirst p (applyUpdate req) l) := by
  induction l with
  | nil => exact List.Forall₂.nil
  | cons c t ih =>
    by_cases hc : p c
    · simp only [updateFirst, if_pos hc]
      exact List.Forall₂.cons
        (fun hb => applyUpdate_currentBid_of_ne req c hb)
        (List.forall₂_same.mpr fun x _ => fun _ => rfl)
    · simp only [updateFirst, if_neg hc]
      exact List.Forall₂.cons (fun _ => rfl) ih

theorem applyUpdate_startingBid_set (req : UpdateReq) (a : Auction)
    (sb : JsNum) (h : req.startingBid = some sb) (hn : sb.isNaN = false) :
    (applyUpdate req a).startingBid = sb ∧
      (a.bids = [] → (applyUpdate req a).currentBid = sb) ∧
      (a.bids ≠ [] → (applyUpdate req a).currentBid = a.currentBid) := by
  rw [applyUpdate]
  set a3 := updTime req (updDescription req (updTitle req a)) with ha3
  have hbids : a3.bids = a.bids := by
    rw [ha3, (updTime_fields req _).1, (updDescription_fields req _).1,
      (updTitle_fields req _).1]
  have hcur : a3.currentBid = a.currentBid := by
    rw [ha3, (updTime_fields req _).2.1, (updDescription_fields req _).2.1,
      (updTitle_fields req _).2.1]
  obtain ⟨s1, s2, s3⟩ := updStartingBid_set req a3 sb h hn
  refine ⟨?_, ?_, ?_⟩
  · rw [(updMaxIncrement_frame req _).2.2.1,
      (updMinIncrement_fields req _).2.2.1, s1]
  · intro hb
    rw [(updMaxIncrement_frame req _).2.1, (updMinIncrement_fields req _).2.1]
    exact s2 (hbids.trans hb)
  · intro hb
    rw [(updMaxIncrement_frame req _).2.1, (updMinIncrement_fields req _).2.1]
    exact (s3 fun h0 => hb (hbids.symm.trans h0)).trans hcur

/-- The store invariant that the mutation routes maintain: an empty bid
list keeps currentBid at startingBid, a non-empty one keeps currentBid
at the last recorded amount, and the stored maxIncrement is absent or
strictly positive. -/
def GoodAuction (a : Auction) : Prop :=
  (a.bids = [] → a.currentBid = a.startingBid) ∧
    (∀ b, a.bids.getLast? = some b → a.currentBid = b.amount) ∧
    (a.maxIncrement = none ∨
      ∃ m, a.maxIncrement = some m ∧ JsNum.lt (.fin 0) m = true)

theorem good_create (auctions : List Auction) (req : CreateReq)
    (r1 r2 r3 : String) (hinv : ∀ x ∈ auctions, GoodAuction x) :
    ∀ x ∈ createAuction auctions req r1 r2 r3, GoodAuction x := by
  intro x hx
  rw [createAuction] at hx
  rcases List.mem_append.mp hx with hx | hx
  · exact hinv x hx
  · rw [List.mem_singleton] at hx
    subst hx
    refine ⟨fun _ => rfl, by simp, ?_⟩
    by_cases hp : JsNum.lt (.fin 0) (JsNum.orD req.maxIncrement (.fin 0)) = true
    · right
      exact ⟨_, by simp [hp], hp⟩
    · left; simp [hp]

theorem good_placeBid (auctions : List Auction) (slug : String)
    (amount : JsNum) (now : Int) (hinv : ∀ x ∈ auctions, GoodAuction x) :
    ∀ x ∈ (placeBid auctions slug amount now).2, GoodAuction x := by
  intro x hx
  rw [placeBid] at hx
  cases hf : auctions.find? (fun a => a.slug == slug) with
  | none => rw [hf] at hx; exact hinv x hx
  | some a =>
    rw [hf] at hx
    simp only at hx
    by_cases h1 : (!hasStarted now a.startsAt) = true
    · rw [if_pos h1] at hx; exact hinv x hx
    · rw [if_neg h1] at hx
      by_cases h2 : hasEnded now a.endsAt = true
      · rw [if_pos h2] at hx; exact hinv x hx
      · rw [if_neg h2] at hx
        by_cases h3 : (amount.isNaN || JsNum.le amount a.currentBid) = true
        · rw [if_pos h3] at hx; exact hinv x hx
        · rw [if_neg h3] at hx
          by_cases h4 : (!JsNum.strictEq (JsNum.sub amount a.currentBid)
              (clampBidIncrement (JsNum.sub amount a.currentBid)
                a.minIncrement a.maxIncrement)) = true
          · rw [if_pos h4] at hx; exact hinv x hx
          · rw [if_neg h4] at hx
            rcases mem_updateFirst hx with hx | ⟨c, hc, _, rfl⟩
            · exact hinv x hx
            · obtain ⟨_, _, hmax⟩ := hinv c hc
              refine ⟨by simp, ?_, hmax⟩
              intro b hb
              rw [List.getLast?_concat] at hb
              cases hb
              rfl

theorem good_updateAuction (auctions : List Auction) (id : String)
    (req : UpdateReq) (hinv : ∀ x ∈ auctions, GoodAuction x) :
    ∀ x ∈ updateAuction auctions id req, GoodAuction x := by
  intro x hx
  rcases mem_updateFirst hx with hx | ⟨a, ha, _, rfl⟩
  · exact hinv x hx
  · obtain ⟨g1, g2, _⟩ := hinv a ha
    refine ⟨?_, ?_, ?_⟩
    · intro hb
      rw [applyUpdate_bids] at hb
      exact applyUpdate_inv_empty req a hb (g1 hb)
    · intro b hb
      rw [applyUpdate_bids] at hb
      have hne : a.bids ≠ [] := by
        intro h0; rw [h0] at hb; cases hb
      rw [applyUpdate_currentBid_of_ne req a hne]
      exact g2 b hb
    · rcases applyUpdate_maxIncrement_good req a with h | h | ⟨m, hm, hp⟩
      · rw [h]; exact (hinv a ha).2.2
      · left; exact h
      · right; exact ⟨m, hm, hp⟩

theorem good_deleteAuction (auctions : List Auction) (id : String)
    (hinv : ∀ x ∈ auctions, GoodAuction x) :
    ∀ x ∈ deleteAuction auctions id, GoodAuction x := by
  intro x hx
  exact hinv x (List.mem_of_mem_filter hx)

theorem good_applyOp (auctions : List Auction) (op : Op)
    (hinv : ∀ x ∈ auctions, GoodAuction x) :
    ∀ x ∈ applyOp auctions op, GoodAuction x := by
  cases op with
  | create req r1 r2 r3 => exact good_create auctions req r1 r2 r3 hinv
  | bid slug amount now => exact good_placeBid auctions slug amount now hinv
  | update id req => exact good_updateAuction auctions id req hinv
  | delete id => exact good_deleteAuction auctions id hinv

theorem good_foldl (ops : List Op) :
    ∀ s : List Auction, (∀ x ∈ s, GoodAuction x) →
      ∀ x ∈ ops.foldl applyOp s, GoodAuction x := by
  induction ops with
  | nil => intro s hs; simpa using hs
  | cons op rest ih =>
    intro s hs
    rw [List.foldl_cons]
    exact ih (applyOp s op) (good_applyOp s op hs)

theorem good_run (ops : List Op) : ∀ x ∈ run ops, GoodAuction x :=
  good_foldl ops [] (by simp)

/-- Whatever placeBid does, its store is unchanged or one accepted bid
rewrote the first slug match. -/
theorem placeBid_snd_spec (auctions : List Auction) (slug : String)
    (amount : JsNum) (now : Int) :
    (placeBid auctions slug amount now).2 = auctions ∨
      ∃ a l₁ l₂, auctions.find? (fun x => x.slug == slug) = some a ∧
        auctions = l₁ ++ a :: l₂ ∧
        amount.isNaN = false ∧ JsNum.le amount a.currentBid = false ∧
        (placeBid auctions slug amount now).2 =
          l₁ ++ { a with
              currentBid := JsNum.round2 amount
              bids := a.bids ++
                [{ amount := JsNum.round2 amount, atISO := now }] } :: l₂ := by
  cases hf : auctions.find? (fun x => x.slug == slug) with
  | none => left; simp [placeBid, hf]
  | some a =>
    by_cases h1 : (!hasStarted now a.startsAt) = true
    · left; simp [placeBid, hf, h1]
    · by_cases h2 : hasEnded now a.endsAt = true
      · left; simp only [placeBid, hf]; rw [if_neg h1, if_pos h2]
      · by_cases h3 : (amount.isNaN || JsNum.le amount a.currentBid) = true
        · left; simp only [placeBid, hf]
          rw [if_neg h1, if_neg h2, if_pos h3]
        · by_cases h4 : (!JsNum.strictEq (JsNum.sub amount a.currentBid)
              (clampBidIncrement (JsNum.sub amount a.currentBid)
                a.minIncrement a.maxIncrement)) = true
          · left; simp only [placeBid, hf]
            rw [if_neg h1, if_neg h2, if_neg h3, if_pos h4]
          · right
            obtain ⟨l₁, l₂, hsplit, hpre, hpa⟩ := find?_split hf
            refine ⟨a, l₁, l₂, rfl, hsplit, ?_, ?_, ?_⟩
            · rcases Bool.or_eq_false_iff.mp (by simpa using h3) with ⟨hh, _⟩
              exact hh
            · rcases Bool.or_eq_false_iff.mp (by simpa using h3) with ⟨_, hh⟩
              exact hh
            · simp only [placeBid, hf]
              rw [if_neg h1, if_neg h2, if_neg h3, if_neg h4]
              simp only
              rw [hsplit]
              exact updateFirst_append l₁ a l₂ hpre hpa

/-- An accepted placeBid pins down the validation state: the target was
found, the amount is a non-NaN value strictly above currentBid, the raw
increment survived the clamp comparison, and the recorded value is the
amount rounded to two decimals. -/
theorem placeBid_accept_spec (auctions : List Auction) (slug : String)
    (amount : JsNum) (now : Int) (v : JsNum)
    (h : (placeBid auctions slug amount now).1 = .accepted v) :
    ∃ a, auctions.find? (fun x => x.slug == slug) = some a ∧
      amount.isNaN = false ∧ JsNum.le amount a.currentBid = false ∧
      JsNum.strictEq (JsNum.sub amount a.currentBid)
        (clampBidIncrement (JsNum.sub amount a.currentBid)
          a.minIncrement a.maxIncrement) = true ∧
      v = JsNum.round2 amount := by
  cases hf : auctions.find? (fun x => x.slug == slug) with
  | none => rw [placeBid, hf] at h; cases h
  | some a =>
    rw [placeBid, hf] at h
    simp only at h
    by_cases h1 : (!hasStarted now a.startsAt) = true
    · rw [if_pos h1] at h; cases h
    · rw [if_neg h1] at h
      by_cases h2 : hasEnded now a.endsAt = true
      · rw [if_pos h2] at h; cases h
      · rw [if_neg h2] at h
        by_cases h3 : (amount.isNaN || JsNum.le amount a.currentBid) = true
        · rw [if_pos h3] at h; cases h
        · rw [if_neg h3] at h
          by_cases h4 : (!JsNum.strictEq (JsNum.sub amount a.currentBid)
              (clampBidIncrement (JsNum.sub amount a.currentBid)
                a.minIncrement a.maxIncrement)) = true
          · rw [if_pos h4] at h; cases h
          · rw [if_neg h4] at h
            simp only at h
            obtain ⟨h31, h32⟩ := Bool.or_eq_false_iff.mp (by simpa using h3)
            refine ⟨a, rfl, h31, h32, by simpa using h4, ?_⟩
            injection h with hv
            exact hv.symm

/-- Rounding a strictly larger rational to cents cannot drop below a
whole-cent bound. -/
theorem le_round2_of_lt {c q : ℚ} (hden : (c * 100).den = 1) (h : c < q) :
    JsNum.le (.fin c) (JsNum.round2 (.fin q)) = true := by
  rw [round2_fin]
  simp only [JsNum.le, decide_eq_true_eq]
  have hnum : ((c * 100).num : ℚ) = c * 100 :=
    Rat.coe_int_num_of_den_eq_one hden
  have h1 : ((c * 100).num : ℚ) ≤ q * 100 := by rw [hnum]; linarith
  have h2 := floor_half_ge h1
  rw [hnum] at h2
  linarith

/-! Claim theorems. -/

/-- C5 (amended): after every sequence of operations, an auction whose
bid list is empty has currentBid = startingBid, and one whose bid list
is non-empty has currentBid equal to the amount of its last recorded
bid.  (The converse of the spec's "iff" - currentBid = startingBid only
when bids is empty - fails on the code; see the counterexample.) -/
theorem c5_currentBid_tracks_bids (ops : List Op) (a : Auction)
    (ha : a ∈ run ops) :
    (a.bids = [] → a.currentBid = a.startingBid) ∧
      (match a.bids.getLast? with
       | none => True
       | some b => a.currentBid = b.amount) := by
  refine ⟨(good_run ops a ha).1, ?_⟩
  cases hb : a.bids.getLast? with
  | none => trivial
  | some b => exact (good_run ops a ha).2.1 b hb

/-- Witness for C5 at the concrete create-then-bid scenario. -/
theorem c5_witness :
    lotAuctionBid ∈ run [.create reqLot "x" "y" "i1", .bid "lot" (.fin 60) 5] ∧
      ((lotAuctionBid.bids = [] →
          lotAuctionBid.currentBid = lotAuctionBid.startingBid) ∧
        (match lotAuctionBid.bids.getLast? with
         | none => True
         | some b => lotAuctionBid.currentBid = b.amount)) :=
  ⟨by decide,
   c5_currentBid_tracks_bids [.create reqLot "x" "y" "i1", .bid "lot" (.fin 60) 5]
     lotAuctionBid (by decide)⟩

/-- C5 counterexample: after create, an accepted bid of 60, and an admin
patch setting startingBid to 60, the auction holds one recorded bid yet
currentBid = startingBid = 60, refuting the "iff" (its only-if
direction). -/
theorem c5_counterexample :
    (run [.create reqLot "x" "y" "i1", .bid "lot" (.fin 60) 5,
        .update "i1" { patchNone with startingBid := some (.fin 60) }]).map
      (fun a => (a.startingBid, a.currentBid, a.bids.length)) =
      [(.fin 60, .fin 60, 1)] := by decide

/-- C10: every operation sequence keeps each stored maxIncrement either
absent or strictly positive; clampBidIncrement imposes no upper bound
when the cap is absent, and a cap of zero is falsy so it behaves exactly
like an absent cap (it can never cap). -/
theorem c10_maxIncrement_invariant (ops : List Op) (a : Auction)
    (ha : a ∈ run ops) (amount minInc : JsNum) :
    (match a.maxIncrement with
     | none => True
     | some m => JsNum.lt (.fin 0) m = true) ∧
      clampBidIncrement amount minInc none =
        (if JsNum.lt amount minInc = true then minInc else amount) ∧
      clampBidIncrement amount minInc (some (.fin 0)) =
        clampBidIncrement amount minInc none := by
  refine ⟨?_, rfl, ?_⟩
  · rcases (good_run ops a ha).2.2 with h | ⟨m, hm, hp⟩
    · rw [h]; trivial
    · rw [hm]; exact hp
  · simp [clampBidIncrement, JsNum.truthy]

/-- Witness for C10: a creation that submits maxIncrement -3 stores an
absent cap. -/
theorem c10_witness :
    lotNoCap ∈ run [.create { reqLot with maxIncrement := .fin (-3) } "x" "y" "i1"] ∧
      ((match lotNoCap.maxIncrement with
        | none => True
        | some m => JsNum.lt (.fin 0) m = true) ∧
        clampBidIncrement (.fin 5) (.fin 1) none =
          (if JsNum.lt (.fin 5) (.fin 1) = true then .fin 1 else .fin 5) ∧
        clampBidIncrement (.fin 5) (.fin 1) (some (.fin 0)) =
          clampBidIncrement (.fin 5) (.fin 1) none) :=
  ⟨by decide,
   c10_maxIncrement_invariant
     [.create { reqLot with maxIncrement := .fin (-3) } "x" "y" "i1"]
     lotNoCap (by decide) (.fin 5) (.fin 1)⟩

/-- C4 (amended): updateAuction patches the first auction whose id
matches; a present, numeric startingBid in the patch always overwrites
the stored startingBid field, also when bids exist (the claim's "field
left unchanged" fails; see the counterexample).  currentBid follows the
patched startingBid only while bids is empty, and updateAuction never
changes currentBid once a bid exists. -/
theorem c4_update_startingBid (l₁ : List Auction) (a : Auction)
    (l₂ : List Auction) (id : String) (req : UpdateReq) (sb : JsNum)
    (h1 : l₁.all (fun x => !(x.id == id)) = true)
    (ha : (a.id == id) = true)
    (hsb : req.startingBid = some sb) (hn : sb.isNaN = false) :
    updateAuction (l₁ ++ a :: l₂) id req = l₁ ++ applyUpdate req a :: l₂ ∧
      (applyUpdate req a).startingBid = sb ∧
      (a.bids = [] → (applyUpdate req a).currentBid = sb) ∧
      (a.bids ≠ [] → (applyUpdate req a).currentBid = a.currentBid) := by
  have h1b : ∀ x ∈ l₁, (x.id == id) = false := by
    intro x hx
    simpa using List.all_eq_true.mp h1 x hx
  exact ⟨updateFirst_append l₁ a l₂ h1b ha,
    applyUpdate_startingBid_set req a sb hsb hn⟩

/-- Witness for C4 on the store with one recorded bid and a patch
setting startingBid to 999. -/
theorem c4_witness :
    ([] : List Auction).all (fun x => !(x.id == "i1")) = true ∧
      (lotAuctionBid.id == "i1") = true ∧
      (updateAuction ([] ++ lotAuctionBid :: []) "i1"
          { patchNone with startingBid := some (.fin 999) } =
        [] ++ applyUpdate { patchNone with startingBid := some (.fin 999) }
          lotAuctionBid :: [] ∧
        (applyUpdate { patchNone with startingBid := some (.fin 999) }
            lotAuctionBid).startingBid = .fin 999 ∧
        (lotAuctionBid.bids = [] →
          (applyUpdate { patchNone with startingBid := some (.fin 999) }
              lotAuctionBid).currentBid = .fin 999) ∧
        (lotAuctionBid.bids ≠ [] →
          (applyUpdate { patchNone with startingBid := some (.fin 999) }
              lotAuctionBid).currentBid = lotAuctionBid.currentBid)) :=
  ⟨by decide, by decide,
   c4_update_startingBid [] lotAuctionBid [] "i1"
     { patchNone with startingBid := some (.fin 999) } (.fin 999)
     (by decide) (by decide) rfl rfl⟩

/-- C4 counterexample: with one recorded bid, patching startingBid 999
overwrites the stored startingBid field (50 becomes 999), which the
claim says is left unchanged while bids is non-empty. -/
theorem c4_counterexample :
    storeLotBid.map (fun a => a.startingBid) = [.fin 50] ∧
      (updateAuction storeLotBid "i1"
          { patchNone with startingBid := some (.fin 999) }).map
        (fun a => (a.startingBid, a.currentBid, a.bids.length)) =
      [(.fin 999, .fin 60, 1)] := by decide

/-- C2 (amended): the creation route validates nothing and never
rejects: every request appends exactly one auction and leaves the
existing list intact; endsAt is startsAt plus the effective duration
(default 60 minutes when the field is missing, unparsable or zero), so
endsAt exceeds startsAt only when that duration is positive; and
minIncrement falls back to 1 when the field is empty, non-numeric or
zero, while a negative value is stored as given. -/
theorem c2_create_never_rejects (auctions : List Auction)
    (req : CreateReq) (r1 r2 r3 : String) :
    (createAuction auctions req r1 r2 r3).take auctions.length = auctions ∧
      (createAuction auctions req r1 r2 r3).length = auctions.length + 1 ∧
      ((createAuction auctions req r1 r2 r3).map
          (fun a => a.endsAt)).getLast? =
        some (req.startsAt + durEff req.durationMinutes * 60000) ∧
      ((createAuction auctions req r1 r2 r3).map
          (fun a => a.minIncrement)).getLast? =
        some (JsNum.orD req.minIncrement (.fin 1)) ∧
      (0 < durEff req.durationMinutes →
        ((createAuction auctions req r1 r2 r3).map
            (fun a => decide (a.startsAt < a.endsAt))).getLast? =
          some true) := by
  refine ⟨?_, ?_, ?_, ?_, ?_⟩
  · rw [createAuction]; exact List.take_left auctions _
  · rw [createAuction]; simp
  · simp [createAuction, List.getLast?_concat]
  · simp [createAuction, List.getLast?_concat]
  · intro hpos
    simp only [createAuction, List.map_append, List.map_cons, List.map_nil,
      List.getLast?_concat, Option.some.injEq]
    have : req.startsAt < req.startsAt + durEff req.durationMinutes * 60000 := by
      have : 0 < durEff req.durationMinutes * 60000 := by positivity
      omega
    simp [this]

/-- C2 counterexample: a creation request with duration -5 minutes and
minIncrement -5 is not rejected; it mutates the (empty) auction list,
appending an auction whose endsAt precedes its startsAt and whose
minIncrement is negative. -/
theorem c2_counterexample :
    (createAuction []
        { reqLot with durationMinutes := some (-5), minIncrement := .fin (-5) }
        "x" "y" "i1").map (fun a => (a.startsAt, a.endsAt, a.minIncrement)) =
      [(0, -300000, .fin (-5))] := by decide

/-- Witness for C2 at the concrete lot request on the empty store. -/
theorem c2_witness :
    (createAuction [] reqLot "x" "y" "i1").take
        ([] : List Auction).length = [] ∧
      (createAuction [] reqLot "x" "y" "i1").length =
        ([] : List Auction).length + 1 ∧
      ((createAuction [] reqLot "x" "y" "i1").map
          (fun a => a.endsAt)).getLast? =
        some (reqLot.startsAt + durEff reqLot.durationMinutes * 60000) ∧
      ((createAuction [] reqLot "x" "y" "i1").map
          (fun a => a.minIncrement)).getLast? =
        some (JsNum.orD reqLot.minIncrement (.fin 1)) ∧
      (0 < durEff reqLot.durationMinutes →
        ((createAuction [] reqLot "x" "y" "i1").map
            (fun a => decide (a.startsAt < a.endsAt))).getLast? =
          some true) :=
  c2_create_never_rejects [] reqLot "x" "y" "i1"

/-- C8 (amended): creation never overwrites an existing auction (the
prior list survives untouched and one auction is appended), and on a
slug collision the route appends one random disambiguator without
re-checking uniqueness: pairwise-distinct slugs are therefore preserved
exactly when the chosen slug is itself fresh, and deletion always
preserves distinctness.  (Unconditional uniqueness fails; see the
counterexample.) -/
theorem c8_slug_uniqueness (auctions : List Auction) (req : CreateReq)
    (r1 r2 r3 : String) (id : String)
    (hd : (auctions.map (fun x => x.slug)).Nodup)
    (hf : auctions.all
        (fun x => !(x.slug == chooseSlug auctions req r1 r2)) = true) :
    ((createAuction auctions req r1 r2 r3).map (fun x => x.slug)).Nodup ∧
      (createAuction auctions req r1 r2 r3).take auctions.length = auctions ∧
      ((deleteAuction auctions id).map (fun x => x.slug)).Nodup := by
  have hnm : chooseSlug auctions req r1 r2 ∉
      auctions.map (fun x => x.slug) := by
    intro hmem
    obtain ⟨x, hx, hxe⟩ := List.mem_map.mp hmem
    have hne := List.all_eq_true.mp hf x hx
    simp only [Bool.not_eq_true', beq_eq_false_iff_ne, ne_eq] at hne
    exact hne hxe
  refine ⟨?_, ?_, ?_⟩
  · simp only [createAuction, List.map_append, List.map_cons, List.map_nil]
    rw [List.nodup_append]
    refine ⟨hd, List.nodup_singleton _, ?_⟩
    intro s hs hs1
    rw [List.mem_singleton] at hs1
    subst hs1
    exact hnm hs
  · rw [createAuction]; exact List.take_left auctions _
  · exact hd.sublist (List.Sublist.map _ (List.filter_sublist auctions))

/-- Witness for C8: creating a non-colliding slug in a one-auction store
keeps slugs distinct. -/
theorem c8_witness :
    (storeLot.map (fun x => x.slug)).Nodup ∧
      storeLot.all (fun x =>
        !(x.slug == chooseSlug storeLot { reqLot with slug := "other" }
            "x" "y")) = true ∧
      (((createAuction storeLot { reqLot with slug := "other" } "x" "y"
            "i2").map (fun x => x.slug)).Nodup ∧
        (createAuction storeLot { reqLot with slug := "other" } "x" "y"
            "i2").take storeLot.length = storeLot ∧
        ((deleteAuction storeLot "i1").map (fun x => x.slug)).Nodup) :=
  ⟨by decide, by decide,
   c8_slug_uniqueness storeLot { reqLot with slug := "other" } "x" "y"
     "i2" "i1" (by decide) (by decide)⟩

/-- C8 counterexample: three creations with the colliding slug "a" and
the unlucky repeated random suffix "bcde" produce two auctions with the
same slug "a-bcde": the single disambiguation step is not re-checked. -/
theorem c8_counterexample :
    (run [.create { reqLot with slug := "a" } "x" "y" "i1",
        .create { reqLot with slug := "a" } "x" "bcde" "i2",
        .create { reqLot with slug := "a" } "x" "bcde" "i3"]).map
      (fun a => a.slug) = ["a", "a-bcde", "a-bcde"] ∧
      ¬ ((run [.create { reqLot with slug := "a" } "x" "y" "i1",
          .create { reqLot with slug := "a" } "x" "bcde" "i2",
          .create { reqLot with slug := "a" } "x" "bcde" "i3"]).map
        (fun a => a.slug)).Nodup := by decide

/-- C3 (amended): with the target auction found, a bid strictly before
startsAt is rejected with the not-started reason, and a bid at or after
endsAt is rejected with the ended reason provided the auction has
started; when a degenerate window (endsAt at or before startsAt, which
creation does not forbid) puts now both after endsAt and before
startsAt, the not-started rejection takes precedence (see the
counterexample).  In both cases the store is unchanged. -/
theorem c3_time_gate (auctions : List Auction) (slug : String)
    (amount : JsNum) (now : Int) (a : Auction)
    (hf : auctions.find? (fun x => x.slug == slug) = some a) :
    (now < a.startsAt →
      placeBid auctions slug amount now = (.notStarted, auctions)) ∧
      (a.startsAt ≤ now → a.endsAt ≤ now →
        placeBid auctions slug amount now = (.ended, auctions)) := by
  constructor
  · intro h
    have hs : hasStarted now a.startsAt = false := by
      simp only [hasStarted, decide_eq_false_iff_not]; omega
    simp [placeBid, hf, hs]
  · intro h1 h2
    have hs : hasStarted now a.startsAt = true := by
      simp [hasStarted, h1]
    have he : hasEnded now a.endsAt = true := by
      simp [hasEnded, h2]
    simp [placeBid, hf, hs, he]

/-- Witness for C3 at time -1, before the lot auction opens. -/
theorem c3_witness :
    storeLot.find? (fun x => x.slug == "lot") = some lotAuction ∧
      ((-1 < lotAuction.startsAt →
          placeBid storeLot "lot" (.fin 60) (-1) = (.notStarted, storeLot)) ∧
        (lotAuction.startsAt ≤ -1 → lotAuction.endsAt ≤ -1 →
          placeBid storeLot "lot" (.fin 60) (-1) = (.ended, storeLot))) :=
  ⟨by decide, c3_time_gate storeLot "lot" (.fin 60) (-1) lotAuction (by decide)⟩

/-- C3 counterexample: creation with a negative duration yields endsAt
400000 before startsAt 1000000; at now = 700000 the auction is past its
end (now >= endsAt), yet the rejection reason is not-started rather than
the ended reason the claim requires. -/
theorem c3_counterexample :
    (run [.create
        { reqLot with
            startsAt := 1000000
            durationMinutes := some (-10) } "x" "y" "i1"]).map
      (fun a => (a.startsAt, a.endsAt)) = [(1000000, 400000)] ∧
      (400000 : Int) ≤ 700000 ∧
      (placeBid
          (run [.create
            { reqLot with
                startsAt := 1000000
                durationMinutes := some (-10) } "x" "y" "i1"])
          "lot" (.fin 60) 700000).1 = .notStarted := by decide

/-- C7 (amended): on an active auction, a proposed amount that is NaN or
at most currentBid is rejected with the too-low reason and the store is
unchanged.  An infinite proposal above currentBid is not rejected this
way - the code tests only isNaN - and with no cap set it is accepted
(see the counterexample). -/
theorem c7_tooLow_rejection (auctions : List Auction) (slug : String)
    (amount : JsNum) (now : Int) (a : Auction)
    (hf : auctions.find? (fun x => x.slug == slug) = some a)
    (hs : hasStarted now a.startsAt = true)
    (he : hasEnded now a.endsAt = false)
    (h : (amount.isNaN || JsNum.le amount a.currentBid) = true) :
    placeBid auctions slug amount now = (.tooLow, auctions) := by
  simp [placeBid, hf, hs, he, h]

/-- Witness for C7: a NaN bid on the active lot auction. -/
theorem c7_witness :
    storeLot.find? (fun x => x.slug == "lot") = some lotAuction ∧
      hasStarted 5 lotAuction.startsAt = true ∧
      hasEnded 5 lotAuction.endsAt = false ∧
      (JsNum.isNaN .nan || JsNum.le .nan lotAuction.currentBid) = true ∧
      placeBid storeLot "lot" .nan 5 = (.tooLow, storeLot) :=
  ⟨by decide, by decide, by decide, by decide,
   c7_tooLow_rejection storeLot "lot" .nan 5 lotAuction
     (by decide) (by decide) (by decide) (by decide)⟩

/-- C7 counterexample: with no maxIncrement cap, a bid of +infinity on
the active lot auction is accepted and currentBid becomes infinite - the
claim requires a too-low rejection leaving the auction unchanged. -/
theorem c7_counterexample :
    (placeBid (run [.create { reqLot with maxIncrement := .fin 0 }
        "x" "y" "i1"]) "lot" .inf 5).1 = .accepted .inf ∧
      (placeBid (run [.create { reqLot with maxIncrement := .fin 0 }
          "x" "y" "i1"]) "lot" .inf 5).2.map (fun a => a.currentBid) =
        [.inf] := by decide

/-- C6: on an active auction with a non-NaN proposal above currentBid,
a proposed increment below minIncrement is rejected with the
increment-bounds reason (the code's realization of BelowMinIncrement),
an increment above a set (truthy) maxIncrement is rejected with the
same increment-bounds reason (its realization of AboveMaxIncrement),
and a proposal whose increment survives the clamp comparison is
accepted with the new currentBid equal to the proposed amount rounded
to two decimals - never a clamped substitute. -/
theorem c6_increment_policy (l₁ : List Auction) (a : Auction)
    (l₂ : List Auction) (auctions : List Auction) (slug : String)
    (amount : JsNum) (now : Int)
    (hsplit : auctions = l₁ ++ a :: l₂)
    (h1 : l₁.all (fun x => !(x.slug == slug)) = true)
    (hpa : (a.slug == slug) = true)
    (hs : hasStarted now a.startsAt = true)
    (he : hasEnded now a.endsAt = false)
    (hnan : amount.isNaN = false)
    (hgt : JsNum.le amount a.currentBid = false) :
    (JsNum.lt (JsNum.sub amount a.currentBid) a.minIncrement = true →
      placeBid auctions slug amount now =
        (.incrementOutOfBounds a.minIncrement a.maxIncrement, auctions)) ∧
      (match a.maxIncrement with
       | none => True
       | some m => m.truthy = true →
           JsNum.lt m (JsNum.sub amount a.currentBid) = true →
           placeBid auctions slug amount now =
             (.incrementOutOfBounds a.minIncrement a.maxIncrement,
              auctions)) ∧
      (JsNum.strictEq (JsNum.sub amount a.currentBid)
          (clampBidIncrement (JsNum.sub amount a.currentBid)
            a.minIncrement a.maxIncrement) = true →
        placeBid auctions slug amount now =
          (.accepted (JsNum.round2 amount),
           l₁ ++ { a with
               currentBid := JsNum.round2 amount
               bids := a.bids ++
                 [{ amount := JsNum.round2 amount, atISO := now }] } :: l₂)) := by
  have h1b : ∀ x ∈ l₁, (x.slug == slug) = false := by
    intro x hx
    simpa using List.all_eq_true.mp h1 x hx
  have hf : auctions.find? (fun x => x.slug == slug) = some a := by
    rw [hsplit]; exact find?_of_split l₁ a l₂ h1b hpa
  refine ⟨?_, ?_, ?_⟩
  · intro h
    have hcl := clamp_ne_of_belowMin a.maxIncrement h
    simp [placeBid, hf, hs, he, hnan, hgt, hcl]
  · cases hm : a.maxIncrement with
    | none => trivial
    | some m =>
      intro h2 h3
      have hcl := @clamp_ne_of_aboveMax (JsNum.sub amount a.currentBid)
        a.minIncrement m h2 h3
      simp [placeBid, hf, hs, he, hnan, hgt, hm, hcl]
  · intro h
    have hupd : updateFirst (fun x => x.slug == slug)
        (fun x =>
          { x with
              currentBid := JsNum.round2 amount
              bids := x.bids ++
                [{ amount := JsNum.round2 amount, atISO := now }] })
        auctions =
        l₁ ++ { a with
            currentBid := JsNum.round2 amount
            bids := a.bids ++
              [{ amount := JsNum.round2 amount, atISO := now }] } :: l₂ := by
      rw [hsplit]
      exact updateFirst_append l₁ a l₂ h1b hpa
    simp [placeBid, hf, hs, he, hnan, hgt, h, hupd]

/-- Witness for C6: the lot auction with the specification's scenario,
bidding 60 at time 5. -/
theorem c6_witness :
    storeLot = [] ++ lotAuction :: [] ∧
      ((JsNum.lt (JsNum.sub (.fin 60) lotAuction.currentBid)
          lotAuction.minIncrement = true →
        placeBid storeLot "lot" (.fin 60) 5 =
          (.incrementOutOfBounds lotAuction.minIncrement
            lotAuction.maxIncrement, storeLot)) ∧
      (match lotAuction.maxIncrement with
       | none => True
       | some m => m.truthy = true →
           JsNum.lt m (JsNum.sub (.fin 60) lotAuction.currentBid) = true →
           placeBid storeLot "lot" (.fin 60) 5 =
             (.incrementOutOfBounds lotAuction.minIncrement
               lotAuction.maxIncrement, storeLot)) ∧
      (JsNum.strictEq (JsNum.sub (.fin 60) lotAuction.currentBid)
          (clampBidIncrement (JsNum.sub (.fin 60) lotAuction.currentBid)
            lotAuction.minIncrement lotAuction.maxIncrement) = true →
        placeBid storeLot "lot" (.fin 60) 5 =
          (.accepted (JsNum.round2 (.fin 60)),
           [] ++ { lotAuction with
               currentBid := JsNum.round2 (.fin 60)
               bids := lotAuction.bids ++
                 [{ amount := JsNum.round2 (.fin 60), atISO := 5 }] } :: []))) :=
  ⟨by decide,
   c6_increment_policy [] lotAuction [] storeLot "lot" (.fin 60) 5
     (by decide) (by decide) (by decide) (by decide) (by decide)
     (by decide) (by decide)⟩

/-- C9 (amended): when every stored currentBid is a whole number of
cents (as after any accepted bid, whose recorded value is rounded to
cents), placeBid never lowers any auction's currentBid - pointwise
along the store; and, unconditionally, updateAuction leaves the
currentBid of each auction that already has a recorded bid unchanged.
Without the cent proviso the claim fails: a patch can lower currentBid
while bids is empty, and rounding can lower a sub-cent currentBid (see
the counterexample). -/
theorem c9_currentBid_monotone (auctions : List Auction) (slug : String)
    (amount : JsNum) (now : Int) (id : String) (req : UpdateReq) :
    (auctions.all (fun x => JsNum.centMul x.currentBid) = true →
      List.Forall₂ (fun x y => JsNum.le x.currentBid y.currentBid = true)
        auctions (placeBid auctions slug amount now).2) ∧
      List.Forall₂ (fun x y => x.bids ≠ [] → y.currentBid = x.currentBid)
        auctions (updateAuction auctions id req) := by
  constructor
  · intro hcent
    have hrefl : ∀ x ∈ auctions,
        JsNum.le x.currentBid x.currentBid = true :=
      fun x hx => le_self_of_centMul (List.all_eq_true.mp hcent x hx)
    rcases placeBid_snd_spec auctions slug amount now with
      h | ⟨a, l₁, l₂, hf, hsplit, hnan, hgt, hres⟩
    · rw [h]; exact List.forall₂_same.mpr hrefl
    · rw [hres]
      subst hsplit
      refine List.rel_append ?_ (List.Forall₂.cons ?_ ?_)
      · exact List.forall₂_same.mpr fun x hx =>
          hrefl x (List.mem_append_left _ hx)
      · show JsNum.le a.currentBid (JsNum.round2 amount) = true
        have hc := List.all_eq_true.mp hcent a
          (List.mem_append_right _ (List.mem_cons_self a l₂))
        obtain ⟨c, hcfin, hcden⟩ := centMul_fin hc
        cases amount with
        | nan => simp [JsNum.isNaN] at hnan
        | ninf => rw [hcfin] at hgt; simp [JsNum.le] at hgt
        | inf => rw [hcfin]; simp [JsNum.round2, JsNum.le]
        | fin q =>
          rw [hcfin] at hgt ⊢
          have hlt : c < q := by
            have := hgt
            simp only [JsNum.le, decide_eq_false_iff_not, not_le] at this
            exact this
          exact le_round2_of_lt hcden hlt
      · exact List.forall₂_same.mpr fun x hx => hrefl x
          (List.mem_append_right _ (List.mem_cons_of_mem a hx))
  · rw [updateAuction]
    exact forall₂_currentBid_updateFirst req auctions

/-- Witness for C9: the one-auction store after an accepted bid of 60
(currentBid 60, one recorded bid), a further bid of 61, and a patch
setting startingBid 10. -/
theorem c9_witness :
    storeLotBid.all (fun x => JsNum.centMul x.currentBid) = true ∧
      List.Forall₂ (fun x y => JsNum.le x.currentBid y.currentBid = true)
        storeLotBid (placeBid storeLotBid "lot" (.fin 61) 6).2 ∧
      List.Forall₂ (fun x y => x.bids ≠ [] → y.currentBid = x.currentBid)
        storeLotBid (updateAuction storeLotBid "i1"
          { patchNone with startingBid := some (.fin 10) }) :=
  ⟨by decide,
   (c9_currentBid_monotone storeLotBid "lot" (.fin 61) 6 "i1"
     { patchNone with startingBid := some (.fin 10) }).1 (by decide),
   (c9_currentBid_monotone storeLotBid "lot" (.fin 61) 6 "i1"
     { patchNone with startingBid := some (.fin 10) }).2⟩

/-- C9 counterexample: (a) with no bids, patching startingBid 10 lowers
currentBid from 50 to 10; (b) with startingBid 50.004 and minIncrement
0.0001, an accepted bid of 50.0041 is recorded as 50.00, lowering
currentBid.  Both refute strict non-decrease across updateAuction and
placeBid. -/
theorem c9_counterexample :
    ((updateAuction storeLot "i1"
          { patchNone with startingBid := some (.fin 10) }).map
        (fun x => x.currentBid) = [.fin 10] ∧
      storeLot.map (fun x => x.currentBid) = [.fin 50] ∧
      JsNum.lt (.fin 10) (.fin 50) = true) ∧
      ((placeBid (run [.create
          { reqLot with
              startingBid := .fin (12501/250)
              minIncrement := .fin (1/10000)
              maxIncrement := .fin 0 } "x" "y" "i1"])
          "lot" (.fin (500041/10000)) 5).2.map (fun x => x.currentBid) =
        [.fin 50] ∧
        (run [.create
          { reqLot with
              startingBid := .fin (12501/250)
              minIncrement := .fin (1/10000)
              maxIncrement := .fin 0 } "x" "y" "i1"]).map
          (fun x => x.currentBid) = [.fin (12501/250)] ∧
        JsNum.lt (.fin 50) (.fin (12501/250)) = true) := by decide

/-- C1 (amended): when placeBid accepts a bid and, at that moment, the
auction's currentBid, minIncrement and (when present, truthy)
maxIncrement are whole numbers of cents, the recorded amount minus the
prior currentBid lies in [minIncrement, maxIncrement], or in
[minIncrement, +infinity) when no cap is stored.  Since the prior
currentBid equals the previous recorded bid's amount (startingBid for a
first bid), consecutive recorded bids then obey the bounds in force at
bid time; with sub-cent parameters the recorded difference can leave
the interval because the stored amount is the rounded proposal (see the
counterexample). -/
theorem c1_increment_bounds (auctions : List Auction) (slug : String)
    (amount : JsNum) (now : Int) (a : Auction) (v : JsNum)
    (hf : auctions.find? (fun x => x.slug == slug) = some a)
    (hc : JsNum.centMul a.currentBid = true)
    (hm : JsNum.centMul a.minIncrement = true)
    (hcap : match a.maxIncrement with
            | none => True
            | some m => m.truthy = true ∧ JsNum.centMul m = true)
    (hacc : (placeBid auctions slug amount now).1 = .accepted v) :
    JsNum.le a.minIncrement (JsNum.sub v a.currentBid) = true ∧
      (match a.maxIncrement with
       | none => True
       | some m => JsNum.le (JsNum.sub v a.currentBid) m = true) := by
  obtain ⟨a2, hf2, hnan, hgt, hcl, hv⟩ :=
    placeBid_accept_spec auctions slug amount now v hacc
  rw [hf] at hf2
  cases hf2
  subst hv
  obtain ⟨c, hcfin, hcden⟩ := centMul_fin hc
  obtain ⟨mi, hmfin, hmden⟩ := centMul_fin hm
  obtain ⟨hlow, hhigh⟩ := clamp_bounds hcl
  have hkc : ((c * 100).num : ℚ) = c * 100 :=
    Rat.coe_int_num_of_den_eq_one hcden
  have hkm : ((mi * 100).num : ℚ) = mi * 100 :=
    Rat.coe_int_num_of_den_eq_one hmden
  cases amount with
  | nan => simp [JsNum.isNaN] at hnan
  | ninf => rw [hcfin] at hgt; simp [JsNum.le] at hgt
  | inf =>
    constructor
    · rw [hcfin, hmfin]
      simp [JsNum.round2, JsNum.sub, JsNum.le]
    · cases hmax : a.maxIncrement with
      | none => trivial
      | some mcap =>
        exfalso
        rw [hmax] at hcap
        obtain ⟨htru, hcm⟩ := hcap
        have hr := hhigh mcap hmax htru
        obtain ⟨x, hxfin, _⟩ := centMul_fin hcm
        rw [hcfin, hxfin] at hr
        simp [JsNum.sub, JsNum.lt] at hr
  | fin q =>
    rw [hcfin] at hgt
    have hcq : c < q := by
      simp only [JsNum.le, decide_eq_false_iff_not, not_le] at hgt
      exact hgt
    rw [hcfin, hmfin] at hlow
    have hmle : mi ≤ q - c := by
      simp only [JsNum.sub, JsNum.lt, decide_eq_false_iff_not, not_lt] at hlow
      exact hlow
    constructor
    · rw [hcfin, hmfin, round2_fin]
      simp only [JsNum.sub, JsNum.le, decide_eq_true_eq]
      have key : (((c * 100).num + (mi * 100).num : ℤ) : ℚ) ≤ q * 100 := by
        push_cast
        rw [hkc, hkm]
        linarith
      have h2 := floor_half_ge key
      push_cast at h2
      rw [hkc, hkm] at h2
      linarith
    · cases hmax : a.maxIncrement with
      | none => trivial
      | some mcap =>
        rw [hmax] at hcap
        obtain ⟨htru, hcm⟩ := hcap
        obtain ⟨x, hxfin, hxden⟩ := centMul_fin hcm
        have hkx : ((x * 100).num : ℚ) = x * 100 :=
          Rat.coe_int_num_of_den_eq_one hxden
        have hr := hhigh mcap hmax htru
        rw [hcfin, hxfin] at hr
        have hxge : q - c ≤ x := by
          simp only [JsNum.sub, JsNum.lt, decide_eq_false_iff_not,
            not_lt] at hr
          exact hr
        rw [hcfin, hxfin, round2_fin]
        simp only [JsNum.sub, JsNum.le, decide_eq_true_eq]
        have key : q * 100 ≤ (((c * 100).num + (x * 100).num : ℤ) : ℚ) := by
          push_cast
          rw [hkc, hkx]
          linarith
        have h2 := floor_half_le key
        push_cast at h2
        rw [hkc, hkx] at h2
        linarith

/-- Witness for C1: the scenario bid of 60 on the lot auction, recorded
as 60, increment 10 within [1, 100]. -/
theorem c1_witness :
    storeLot.find? (fun x => x.slug == "lot") = some lotAuction ∧
      JsNum.centMul lotAuction.currentBid = true ∧
      JsNum.centMul lotAuction.minIncrement = true ∧
      (match lotAuction.maxIncrement with
       | none => True
       | some m => m.truthy = true ∧ JsNum.centMul m = true) ∧
      (placeBid storeLot "lot" (.fin 60) 5).1 = .accepted (.fin 60) ∧
      (JsNum.le lotAuction.minIncrement
          (JsNum.sub (.fin 60) lotAuction.currentBid) = true ∧
        (match lotAuction.maxIncrement with
         | none => True
         | some m => JsNum.le (JsNum.sub (.fin 60) lotAuction.currentBid)
             m = true)) :=
  ⟨by decide, by decide, by decide, ⟨by decide, by decide⟩, by decide,
   c1_increment_bounds storeLot "lot" (.fin 60) 5 lotAuction (.fin 60)
     (by decide) (by decide) (by decide) ⟨by decide, by decide⟩ (by decide)⟩

/-- C1 counterexample: with minIncrement 0.001 and maxIncrement 0.005 an
accepted first bid of 50.004 is recorded as 50.00, so the step from
startingBid 50 to the first recorded bid is 0, below the minIncrement
in force at that time. -/
theorem c1_counterexample :
    (placeBid (run [.create
        { reqLot with
            minIncrement := .fin (1/1000)
            maxIncrement := .fin (1/200) } "x" "y" "i1"])
        "lot" (.fin (12501/250)) 5).2.map
      (fun x => (x.startingBid, x.bids.map (fun b => b.amount),
        x.minIncrement)) =
      [(.fin 50, [.fin 50], .fin (1/1000))] ∧
      JsNum.lt (JsNum.sub (.fin 50) (.fin 50)) (.fin (1/1000)) = true := by
  decide

end AuctionServer
